import Mathlib

/-!
# Verification of the heartbeat change-set compaction engine

Shallow embedding of `api/v1/helpers/verbs/heartbeatUtils.js`.

The backing redis store maps keys of the form
`heartbeat::generatorChanges::<collectorName>::<changeType>` to sets of
generator ids.  Since the change type ranges over the three fixed strings
`added`, `deleted`, `updated` (none of which contains the separator), the
key uniquely decodes into the `(collectorName, changeType)` pair, so we
model the store as a total function from collector names to a record of
the three sets (an absent redis key is an empty set, matching redis
semantics for `smembers`, `srem`, `sadd` and `del`).

JavaScript values flowing through the `change` variables are one of the
three strings, the number `0` (`NOCHANGE`) or `undefined`; they are
modelled by the five-constructor type `ChangeVal`.
-/

/-- The possible values of the `change` and `undoChange` variables in the
JS source: the string constants `ADDED`/`DELETED`/`UPDATED`, the numeric
constant `NOCHANGE = 0`, and the JS `undefined` value. -/
inductive ChangeVal where
  | added
  | deleted
  | updated
  | nochange
  | undefined
deriving DecidableEq, Repr

/-- The three pending change sets of one collector: the values of the three
redis keys `heartbeat::generatorChanges::<collector>::<kind>`. -/
structure Pending where
  added : Finset String
  deleted : Finset String
  updated : Finset String
deriving DecidableEq

/-- The redis store, grouped by collector name (see the header comment on
key decoding). -/
abbrev Store := String → Pending

/-- Point update of the store at one collector name. -/
def updateStore (store : Store) (name : String) (p : Pending) : Store :=
  fun n => if n = name then p else store n

/-- `getKey(collectorName, changeType)` from the source: the literal redis
key.  Kept for documentation of the key layout; the model indexes the pair
directly. -/
def getKey (collectorName changeType : String) : String :=
  "heartbeat::generatorChanges::" ++ collectorName ++ "::" ++ changeType

/-- `getChangedIds(collectorName)`: the atomic `multi`/`exec` batch of the
three `smembers` reads, returning the object
`{added, deleted, updated}`. -/
def getChangedIds (store : Store) (collectorName : String) : Pending :=
  store collectorName

/-- `removeFromSet(collectorName, change, genId)`: `srem` on the selected
key when `change` is one of the three set names, otherwise
`Promise.resolve()` (no store mutation). -/
def removeFromSet (store : Store) (collectorName : String) (change : ChangeVal)
    (genId : String) : Store :=
  match change with
  | .added =>
      updateStore store collectorName
        { store collectorName with added := (store collectorName).added.erase genId }
  | .deleted =>
      updateStore store collectorName
        { store collectorName with deleted := (store collectorName).deleted.erase genId }
  | .updated =>
      updateStore store collectorName
        { store collectorName with updated := (store collectorName).updated.erase genId }
  | _ => store

/-- `addToSet(collectorName, change, genId)`: `sadd` on the selected key
when `change` is one of the three set names, otherwise `Promise.resolve()`
(no store mutation). -/
def addToSet (store : Store) (collectorName : String) (change : ChangeVal)
    (genId : String) : Store :=
  match change with
  | .added =>
      updateStore store collectorName
        { store collectorName with added := insert genId (store collectorName).added }
  | .deleted =>
      updateStore store collectorName
        { store collectorName with deleted := insert genId (store collectorName).deleted }
  | .updated =>
      updateStore store collectorName
        { store collectorName with updated := insert genId (store collectorName).updated }
  | _ => store

/-- `resetChanges(collectorName)`: `del` of the three keys, leaving all
three sets empty. -/
def resetChanges (store : Store) (collectorName : String) : Store :=
  updateStore store collectorName ⟨∅, ∅, ∅⟩

/-- The generator argument of `trackGeneratorChanges`; only its `id` field
is read. -/
structure Generator where
  id : String

/-- First-occurrence deduplication with an accumulator of already seen
names: the order-preserving semantics of the JS
`Array.from(new Set(list))`. -/
def jsSetDedupAux (seen : List String) : List String → List String
  | [] => []
  | x :: xs =>
      if x ∈ seen then jsSetDedupAux seen xs
      else x :: jsSetDedupAux (x :: seen) xs

/-- `Array.from(new Set([...oldCollectors, ...newCollectors]))`. -/
def dedupCollectors (l : List String) : List String :=
  jsSetDedupAux [] l

/-- The three `if` statements computing the raw `change` from the two
membership tests; when neither holds the JS variable stays `undefined`. -/
def computeChange (inOld inNew : Bool) : ChangeVal :=
  if inOld && !inNew then .deleted
  else if !inOld && inNew then .added
  else if inOld && inNew then .updated
  else .undefined

/-- The `account for previous changes` block: given the snapshot
`changedIds` of the collector, returns the pair
`(undoChange, change)` exactly as the cascade of conditionals in the
source leaves the two variables. -/
def accountPrevious (changedIds : Pending) (genId : String) (change : ChangeVal) :
    ChangeVal × ChangeVal :=
  let alreadyAdded := genId ∈ changedIds.added
  let alreadyDeleted := genId ∈ changedIds.deleted
  let alreadyUpdated := genId ∈ changedIds.updated
  let alreadyChanged := alreadyAdded ∨ alreadyDeleted ∨ alreadyUpdated
  if alreadyChanged then
    if alreadyAdded ∧ change = ChangeVal.deleted then
      (ChangeVal.added, ChangeVal.nochange)
    else if alreadyDeleted ∧ change = ChangeVal.added then
      (ChangeVal.deleted, ChangeVal.updated)
    else if alreadyUpdated ∧ change = ChangeVal.deleted then
      (ChangeVal.updated, ChangeVal.deleted)
    else
      (ChangeVal.undefined, ChangeVal.nochange)
  else
    (ChangeVal.undefined, change)

/-- The body of the `forEach` loop in `trackGeneratorChanges` for one
collector: the membership tests, the raw change, the compaction, and the
`removeFromSet` followed by `addToSet`.  The entry carries the snapshot of
the collector taken by the initial `Promise.all` batch of reads. -/
def processCollector (oldCollectors newCollectors : List String) (genId : String)
    (store : Store) (entry : String × Pending) : Store :=
  let collectorName := entry.1
  let changedIds := entry.2
  let inOld := oldCollectors.contains collectorName
  let inNew := newCollectors.contains collectorName
  let change := computeChange inOld inNew
  let uc := accountPrevious changedIds genId change
  addToSet (removeFromSet store collectorName uc.1 genId) collectorName uc.2 genId

/-- `trackGeneratorChanges(generator, oldCollectors, newCollectors)`:
deduplicate the affected collectors, snapshot each one's pending sets,
then issue the per-collector remove/add mutations.  The redis commands of
distinct collectors touch disjoint keys and the remove/add pair of one
collector touches two distinct keys, so the sequential fold realises the
same final store as the concurrently resolved promise batch. -/
def trackGeneratorChanges (store : Store) (generator : Generator)
    (oldCollectors newCollectors : List String) : Store :=
  let genId := generator.id
  let allCollectors := dedupCollectors (oldCollectors ++ newCollectors)
  let collectorChanges := allCollectors.map fun name => (name, getChangedIds store name)
  collectorChanges.foldl (processCollector oldCollectors newCollectors genId) store

/-- The net effect of one `processCollector` step on the processed
collector's own record, with compaction decisions taken from the snapshot
`snap`. -/
def netEffectWith (target snap : Pending) (genId : String) (inOld inNew : Bool) :
    Pending :=
  let change := computeChange inOld inNew
  let uc := accountPrevious snap genId change
  let afterRemove :=
    match uc.1 with
    | .added => { target with added := target.added.erase genId }
    | .deleted => { target with deleted := target.deleted.erase genId }
    | .updated => { target with updated := target.updated.erase genId }
    | _ => target
  match uc.2 with
  | .added => { afterRemove with added := insert genId afterRemove.added }
  | .deleted => { afterRemove with deleted := insert genId afterRemove.deleted }
  | .updated => { afterRemove with updated := insert genId afterRemove.updated }
  | _ => afterRemove

/-- The net effect on one collector's record when the snapshot is the
record itself (the sequential, single-occurrence case). -/
def netEffect (p : Pending) (genId : String) (inOld inNew : Bool) : Pending :=
  netEffectWith p p genId inOld inNew

/-! ## Deduplication lemmas -/

theorem mem_jsSetDedupAux (l : List String) (seen : List String) (a : String) :
    a ∈ jsSetDedupAux seen l ↔ a ∈ l ∧ a ∉ seen := by
  induction l generalizing seen with
  | nil => simp [jsSetDedupAux]
  | cons x xs ih =>
      by_cases hx : x ∈ seen
      · rw [jsSetDedupAux, if_pos hx, ih]
        by_cases hax : a = x
        · subst hax
          simp [hx]
        · simp [hax]
      · rw [jsSetDedupAux, if_neg hx]
        by_cases hax : a = x
        · subst hax
          simp [hx]
        · simp [ih, hax]

theorem nodup_jsSetDedupAux (l : List String) (seen : List String) :
    (jsSetDedupAux seen l).Nodup := by
  induction l generalizing seen with
  | nil => simp [jsSetDedupAux]
  | cons x xs ih =>
      by_cases hx : x ∈ seen
      · rw [jsSetDedupAux, if_pos hx]
        exact ih seen
      · rw [jsSetDedupAux, if_neg hx]
        refine List.nodup_cons.mpr ⟨?_, ih (x :: seen)⟩
        intro hmem
        exact ((mem_jsSetDedupAux xs (x :: seen) x).mp hmem).2 (List.mem_cons_self x seen)

theorem mem_dedupCollectors (l : List String) (a : String) :
    a ∈ dedupCollectors l ↔ a ∈ l := by
  rw [dedupCollectors, mem_jsSetDedupAux]
  simp

theorem nodup_dedupCollectors (l : List String) : (dedupCollectors l).Nodup :=
  nodup_jsSetDedupAux l []

theorem contains_eq_decide_mem (l : List String) (a : String) :
    l.contains a = decide (a ∈ l) := by
  simp [List.contains, List.elem_eq_mem]

/-! ## Pointwise behaviour of the store operations -/

theorem removeFromSet_apply_ne (store : Store) (c : String) (ch : ChangeVal)
    (g n : String) (h : n ≠ c) : removeFromSet store c ch g n = store n := by
  cases ch <;> simp [removeFromSet, updateStore, h]

theorem addToSet_apply_ne (store : Store) (c : String) (ch : ChangeVal)
    (g n : String) (h : n ≠ c) : addToSet store c ch g n = store n := by
  cases ch <;> simp [addToSet, updateStore, h]

theorem processCollector_apply_ne (oldC newC : List String) (g : String)
    (store : Store) (entry : String × Pending) (n : String) (h : n ≠ entry.1) :
    processCollector oldC newC g store entry n = store n := by
  rw [processCollector]
  rw [addToSet_apply_ne _ _ _ _ _ h, removeFromSet_apply_ne _ _ _ _ _ h]

theorem processCollector_apply_self (oldC newC : List String) (g : String)
    (store : Store) (c : String) (p : Pending) :
    processCollector oldC newC g store (c, p) c =
      netEffectWith (store c) p g (oldC.contains c) (newC.contains c) := by
  simp only [processCollector, netEffectWith]
  generalize accountPrevious p g (computeChange (oldC.contains c) (newC.contains c)) = uc
  obtain ⟨u, f⟩ := uc
  cases u <;> cases f <;>
    simp [addToSet, removeFromSet, updateStore]

/-! ## Characterisation of `trackGeneratorChanges` -/

theorem foldl_processCollector_not_mem (oldC newC : List String) (g : String)
    (L : List (String × Pending)) (store : Store) (n : String)
    (h : n ∉ L.map Prod.fst) :
    L.foldl (processCollector oldC newC g) store n = store n := by
  induction L generalizing store with
  | nil => rfl
  | cons e L ih =>
      rw [List.map_cons] at h
      have hne : n ≠ e.1 := fun hEq => h (hEq ▸ List.mem_cons_self _ _)
      have hnot : n ∉ L.map Prod.fst := fun hmem => h (List.mem_cons_of_mem _ hmem)
      rw [List.foldl_cons]
      rw [ih _ hnot]
      exact processCollector_apply_ne oldC newC g store e n hne

theorem foldl_processCollector_mem (oldC newC : List String) (g : String)
    (L : List (String × Pending)) (store : Store) (n : String) (p : Pending)
    (hnd : (L.map Prod.fst).Nodup) (hmem : (n, p) ∈ L) :
    L.foldl (processCollector oldC newC g) store n =
      netEffectWith (store n) p g (oldC.contains n) (newC.contains n) := by
  induction L generalizing store with
  | nil => exact absurd hmem (List.not_mem_nil _)
  | cons e L ih =>
      rw [List.map_cons, List.nodup_cons] at hnd
      rcases List.mem_cons.mp hmem with hEq | hTail
      · subst hEq
        rw [List.foldl_cons]
        rw [foldl_processCollector_not_mem oldC newC g L _ n hnd.1]
        exact processCollector_apply_self oldC newC g store n p
      · have hn : n ∈ L.map Prod.fst := List.mem_map_of_mem Prod.fst hTail
        have hne : n ≠ e.1 := fun hEq => hnd.1 (hEq ▸ hn)
        rw [List.foldl_cons]
        rw [ih _ hnd.2 hTail]
        rw [processCollector_apply_ne oldC newC g store e n hne]

theorem trackGeneratorChanges_apply (store : Store) (gen : Generator)
    (oldC newC : List String) (n : String) :
    trackGeneratorChanges store gen oldC newC n =
      if n ∈ dedupCollectors (oldC ++ newC)
      then netEffect (store n) gen.id (oldC.contains n) (newC.contains n)
      else store n := by
  rw [trackGeneratorChanges]
  have hfst : ((dedupCollectors (oldC ++ newC)).map
      fun name => (name, getChangedIds store name)).map Prod.fst =
      dedupCollectors (oldC ++ newC) := by
    simp [Function.comp_def]
  by_cases hn : n ∈ dedupCollectors (oldC ++ newC)
  · rw [if_pos hn]
    have hmem : (n, getChangedIds store n) ∈ (dedupCollectors (oldC ++ newC)).map
        fun name => (name, getChangedIds store name) :=
      List.mem_map_of_mem _ hn
    have hnodup : (((dedupCollectors (oldC ++ newC)).map
        fun name => (name, getChangedIds store name)).map Prod.fst).Nodup := by
      rw [hfst]
      exact nodup_dedupCollectors (oldC ++ newC)
    rw [foldl_processCollector_mem oldC newC gen.id _ store n (getChangedIds store n)
      hnodup hmem]
    rfl
  · rw [if_neg hn]
    refine foldl_processCollector_not_mem oldC newC gen.id _ store n ?_
    rw [hfst]
    exact hn

/-! ## Net effect of a reconcile step on one collector record -/

theorem netEffect_fresh_del (p : Pending) (g : String)
    (h1 : g ∉ p.added) (h2 : g ∉ p.deleted) (h3 : g ∉ p.updated) :
    netEffect p g true false = { p with deleted := insert g p.deleted } := by
  simp [netEffect, netEffectWith, computeChange, accountPrevious, h1, h2, h3]

theorem netEffect_fresh_add (p : Pending) (g : String)
    (h1 : g ∉ p.added) (h2 : g ∉ p.deleted) (h3 : g ∉ p.updated) :
    netEffect p g false true = { p with added := insert g p.added } := by
  simp [netEffect, netEffectWith, computeChange, accountPrevious, h1, h2, h3]

theorem netEffect_fresh_upd (p : Pending) (g : String)
    (h1 : g ∉ p.added) (h2 : g ∉ p.deleted) (h3 : g ∉ p.updated) :
    netEffect p g true true = { p with updated := insert g p.updated } := by
  simp [netEffect, netEffectWith, computeChange, accountPrevious, h1, h2, h3]

theorem netEffect_added_del (p : Pending) (g : String) (h : g ∈ p.added) :
    netEffect p g true false = { p with added := p.added.erase g } := by
  simp [netEffect, netEffectWith, computeChange, accountPrevious, h]

theorem netEffect_deleted_add (p : Pending) (g : String) (h : g ∈ p.deleted) :
    netEffect p g false true =
      ⟨p.added, p.deleted.erase g, insert g p.updated⟩ := by
  simp [netEffect, netEffectWith, computeChange, accountPrevious, h]

theorem netEffect_updated_del (p : Pending) (g : String)
    (hU : g ∈ p.updated) (hA : g ∉ p.added) :
    netEffect p g true false =
      ⟨p.added, insert g p.deleted, p.updated.erase g⟩ := by
  simp [netEffect, netEffectWith, computeChange, accountPrevious, hU, hA]

theorem netEffect_changed_upd (p : Pending) (g : String)
    (h : g ∈ p.added ∨ g ∈ p.deleted ∨ g ∈ p.updated) :
    netEffect p g true true = p := by
  simp [netEffect, netEffectWith, computeChange, accountPrevious, h]

theorem netEffect_mem_of_ne (p : Pending) (g : String) (a b : Bool) (x : String)
    (hx : x ≠ g) :
    (x ∈ (netEffect p g a b).added ↔ x ∈ p.added)
  ∧ (x ∈ (netEffect p g a b).deleted ↔ x ∈ p.deleted)
  ∧ (x ∈ (netEffect p g a b).updated ↔ x ∈ p.updated) := by
  simp only [netEffect, netEffectWith]
  generalize accountPrevious p g (computeChange a b) = uc
  obtain ⟨u, f⟩ := uc
  cases u <;> cases f <;>
    simp [Finset.mem_insert, Finset.mem_erase, hx]

/-! ## Single-collector reconcile calls -/

theorem track_single_old (store : Store) (gen : Generator) (C : String) :
    trackGeneratorChanges store gen [C] [] C = netEffect (store C) gen.id true false := by
  rw [trackGeneratorChanges_apply]
  have hmem : C ∈ dedupCollectors ([C] ++ []) := by
    rw [mem_dedupCollectors]
    simp
  rw [if_pos hmem]
  have h1 : ([C] : List String).contains C = true := by
    rw [contains_eq_decide_mem]
    simp
  have h2 : (([] : List String)).contains C = false := rfl
  rw [h1, h2]

theorem track_single_new (store : Store) (gen : Generator) (C : String) :
    trackGeneratorChanges store gen [] [C] C = netEffect (store C) gen.id false true := by
  rw [trackGeneratorChanges_apply]
  have hmem : C ∈ dedupCollectors ([] ++ [C]) := by
    rw [mem_dedupCollectors]
    simp
  rw [if_pos hmem]
  have h1 : ([C] : List String).contains C = true := by
    rw [contains_eq_decide_mem]
    simp
  have h2 : (([] : List String)).contains C = false := rfl
  rw [h1, h2]

/-- The number of the three pending sets of one collector that contain a
given generator id; the mutual-exclusivity invariant is this count being
at most one. -/
def pendingCount (p : Pending) (x : String) : Nat :=
  (if x ∈ p.added then 1 else 0) + (if x ∈ p.deleted then 1 else 0) +
    (if x ∈ p.updated then 1 else 0)

/-- The all-empty store: no collector has any pending change. -/
def emptyStore : Store := fun _ => ⟨∅, ∅, ∅⟩

/-- A store where collector `c1` has generator `g1` pending as updated and
nothing else. -/
def updStore : Store :=
  updateStore emptyStore "c1" ⟨∅, ∅, {"g1"}⟩

/-! ## Claims -/

/-- C1: starting from a state where the generator is absent from all
three of collector C's pending sets, reconciling it as ADDED
(`oldCollectors = []`, `newCollectors = [C]`) and then as DELETED
(`oldCollectors = [C]`, `newCollectors = []`), with no drain in between,
leaves the generator absent from all three of C's pending sets. -/
theorem C1_add_then_delete_cancels (store : Store) (C : String) (gen : Generator)
    (h1 : gen.id ∉ (store C).added) (h2 : gen.id ∉ (store C).deleted)
    (h3 : gen.id ∉ (store C).updated) :
    gen.id ∉ ((trackGeneratorChanges (trackGeneratorChanges store gen [] [C]) gen [C] []) C).added
  ∧ gen.id ∉ ((trackGeneratorChanges (trackGeneratorChanges store gen [] [C]) gen [C] []) C).deleted
  ∧ gen.id ∉ ((trackGeneratorChanges (trackGeneratorChanges store gen [] [C]) gen [C] []) C).updated := by
  have hs1 : (trackGeneratorChanges store gen [] [C]) C =
      { store C with added := insert gen.id (store C).added } := by
    rw [track_single_new, netEffect_fresh_add _ _ h1 h2 h3]
  rw [track_single_old, hs1,
    netEffect_added_del _ _ (Finset.mem_insert_self _ _)]
  exact ⟨Finset.not_mem_erase _ _, h2, h3⟩

theorem C1_witness :
    (Generator.mk "g1").id ∉
      ((trackGeneratorChanges (trackGeneratorChanges emptyStore ⟨"g1"⟩ [] ["c1"]) ⟨"g1"⟩ ["c1"] []) "c1").added
  ∧ (Generator.mk "g1").id ∉
      ((trackGeneratorChanges (trackGeneratorChanges emptyStore ⟨"g1"⟩ [] ["c1"]) ⟨"g1"⟩ ["c1"] []) "c1").deleted
  ∧ (Generator.mk "g1").id ∉
      ((trackGeneratorChanges (trackGeneratorChanges emptyStore ⟨"g1"⟩ [] ["c1"]) ⟨"g1"⟩ ["c1"] []) "c1").updated :=
  C1_add_then_delete_cancels emptyStore "c1" ⟨"g1"⟩ (by decide) (by decide) (by decide)

/-- C2: starting from a state where the generator is absent from all
three of collector C's pending sets, reconciling it as DELETED and then
as ADDED nets to the generator being pending as UPDATED only: present in
C's updated set and absent from C's added and deleted sets. -/
theorem C2_delete_then_add_nets_update (store : Store) (C : String) (gen : Generator)
    (h1 : gen.id ∉ (store C).added) (h2 : gen.id ∉ (store C).deleted)
    (h3 : gen.id ∉ (store C).updated) :
    gen.id ∈ ((trackGeneratorChanges (trackGeneratorChanges store gen [C] []) gen [] [C]) C).updated
  ∧ gen.id ∉ ((trackGeneratorChanges (trackGeneratorChanges store gen [C] []) gen [] [C]) C).added
  ∧ gen.id ∉ ((trackGeneratorChanges (trackGeneratorChanges store gen [C] []) gen [] [C]) C).deleted := by
  have hs1 : (trackGeneratorChanges store gen [C] []) C =
      { store C with deleted := insert gen.id (store C).deleted } := by
    rw [track_single_old, netEffect_fresh_del _ _ h1 h2 h3]
  rw [track_single_new, hs1,
    netEffect_deleted_add _ _ (Finset.mem_insert_self _ _)]
  exact ⟨Finset.mem_insert_self _ _, h1, Finset.not_mem_erase _ _⟩

theorem C2_witness :
    (Generator.mk "g1").id ∈
      ((trackGeneratorChanges (trackGeneratorChanges emptyStore ⟨"g1"⟩ ["c1"] []) ⟨"g1"⟩ [] ["c1"]) "c1").updated
  ∧ (Generator.mk "g1").id ∉
      ((trackGeneratorChanges (trackGeneratorChanges emptyStore ⟨"g1"⟩ ["c1"] []) ⟨"g1"⟩ [] ["c1"]) "c1").added
  ∧ (Generator.mk "g1").id ∉
      ((trackGeneratorChanges (trackGeneratorChanges emptyStore ⟨"g1"⟩ ["c1"] []) ⟨"g1"⟩ [] ["c1"]) "c1").deleted :=
  C2_delete_then_add_nets_update emptyStore "c1" ⟨"g1"⟩ (by decide) (by decide) (by decide)

/-- C3: starting from a state where the generator is pending as UPDATED
for collector C (and is in none of C's other sets), reconciling it as
DELETED moves it into C's deleted set and removes it from C's updated
set (deletion dominates). -/
theorem C3_updated_then_delete_dominates (store : Store) (C : String) (gen : Generator)
    (hU : gen.id ∈ (store C).updated) (hA : gen.id ∉ (store C).added)
    (hD : gen.id ∉ (store C).deleted) :
    gen.id ∈ ((trackGeneratorChanges store gen [C] []) C).deleted
  ∧ gen.id ∉ ((trackGeneratorChanges store gen [C] []) C).updated := by
  rw [track_single_old, netEffect_updated_del _ _ hU hA]
  exact ⟨Finset.mem_insert_self _ _, Finset.not_mem_erase _ _⟩

theorem C3_witness :
    (Generator.mk "g1").id ∈ ((trackGeneratorChanges updStore ⟨"g1"⟩ ["c1"] []) "c1").deleted
  ∧ (Generator.mk "g1").id ∉ ((trackGeneratorChanges updStore ⟨"g1"⟩ ["c1"] []) "c1").updated :=
  C3_updated_then_delete_dominates updStore "c1" ⟨"g1"⟩ (by decide) (by decide) (by decide)

theorem pendingCount_netEffect_le (p : Pending) (g : String) (a b : Bool)
    (h : pendingCount p g ≤ 1) : pendingCount (netEffect p g a b) g ≤ 1 := by
  by_cases hA : g ∈ p.added <;> by_cases hD : g ∈ p.deleted <;>
    by_cases hU : g ∈ p.updated <;> cases a <;> cases b <;>
      simp_all [pendingCount, netEffect, netEffectWith, computeChange, accountPrevious]

/-- C4: the mutual-exclusivity invariant is preserved by a reconcile
call: for every collector D and generator id x, if x lies in at most one
of D's three pending sets before `trackGeneratorChanges`, it lies in at
most one of them afterwards, for every choice of generator, old and new
collector lists. -/
theorem C4_mutual_exclusivity (store : Store) (gen : Generator)
    (oldC newC : List String) (D x : String)
    (h : pendingCount (store D) x ≤ 1) :
    pendingCount (trackGeneratorChanges store gen oldC newC D) x ≤ 1 := by
  rw [trackGeneratorChanges_apply]
  by_cases hD : D ∈ dedupCollectors (oldC ++ newC)
  · rw [if_pos hD]
    by_cases hx : x = gen.id
    · subst hx
      exact pendingCount_netEffect_le _ _ _ _ h
    · obtain ⟨hA, hDd, hU⟩ := netEffect_mem_of_ne (store D) gen.id
        (oldC.contains D) (newC.contains D) x hx
      simp only [pendingCount, hA, hDd, hU]
      exact h
  · rw [if_neg hD]
    exact h

theorem C4_witness :
    pendingCount (trackGeneratorChanges emptyStore ⟨"g1"⟩ ["c1"] [] "c1") "g1" ≤ 1 :=
  C4_mutual_exclusivity emptyStore ⟨"g1"⟩ ["c1"] [] "c1" "g1" (by decide)

/-- C5 counterexample: with `oldCollectors = newCollectors = ["c1"]` and
an initially empty store, the reconcile call does mutate collector c1's
sets (the generator lands in the updated set), so the pending sets are
not exactly as they were before the call. -/
theorem C5_counterexample :
    trackGeneratorChanges emptyStore ⟨"g1"⟩ ["c1"] ["c1"] "c1" ≠ emptyStore "c1" := by
  decide

/-- C5 amended: if `oldCollectors = newCollectors = S`, then for a
collector in S whose sets already contain the generator id nothing
changes, while for a collector in S not containing it the single mutation
is inserting the id into that collector's updated set; collectors outside
S are untouched. -/
theorem C5_amended_same_collectors (store : Store) (gen : Generator)
    (S : List String) (C : String) :
    (C ∈ S →
      trackGeneratorChanges store gen S S C =
        if gen.id ∈ (store C).added ∨ gen.id ∈ (store C).deleted ∨ gen.id ∈ (store C).updated
        then store C
        else { store C with updated := insert gen.id (store C).updated })
  ∧ (C ∉ S → trackGeneratorChanges store gen S S C = store C) := by
  constructor
  · intro hC
    rw [trackGeneratorChanges_apply, if_pos]
    · have hcon : S.contains C = true := by
        rw [contains_eq_decide_mem]
        simpa using hC
      rw [hcon]
      by_cases h : gen.id ∈ (store C).added ∨ gen.id ∈ (store C).deleted ∨
          gen.id ∈ (store C).updated
      · rw [if_pos h]
        exact netEffect_changed_upd _ _ h
      · rw [if_neg h]
        push_neg at h
        exact netEffect_fresh_upd _ _ h.1 h.2.1 h.2.2
    · rw [mem_dedupCollectors]
      simp [hC]
  · intro hC
    rw [trackGeneratorChanges_apply, if_neg]
    rw [mem_dedupCollectors]
    simp [hC]

theorem C5_witness :
    (trackGeneratorChanges emptyStore ⟨"g1"⟩ ["c1"] ["c1"] "c1" =
      if (Generator.mk "g1").id ∈ (emptyStore "c1").added ∨
         (Generator.mk "g1").id ∈ (emptyStore "c1").deleted ∨
         (Generator.mk "g1").id ∈ (emptyStore "c1").updated
      then emptyStore "c1"
      else { emptyStore "c1" with
             updated := insert (Generator.mk "g1").id (emptyStore "c1").updated })
  ∧ trackGeneratorChanges emptyStore ⟨"g1"⟩ ["c1"] ["c1"] "c2" = emptyStore "c2" :=
  ⟨(C5_amended_same_collectors emptyStore ⟨"g1"⟩ ["c1"] "c1").1 (by decide),
   (C5_amended_same_collectors emptyStore ⟨"g1"⟩ ["c1"] "c2").2 (by decide)⟩

/-- C6: a change kind other than ADDED, DELETED or UPDATED (the NOCHANGE
constant or the undefined value) reaching `removeFromSet` or `addToSet`
mutates nothing: both functions return the store unchanged (the source
returns a resolved promise, surfacing no error). -/
theorem C6_invalid_kind_noop (store : Store) (C : String) (k : ChangeVal) (e : String)
    (h : k ≠ ChangeVal.added ∧ k ≠ ChangeVal.deleted ∧ k ≠ ChangeVal.updated) :
    removeFromSet store C k e = store ∧ addToSet store C k e = store := by
  obtain ⟨h1, h2, h3⟩ := h
  cases k <;> simp_all [removeFromSet, addToSet]

theorem C6_witness :
    removeFromSet emptyStore "c1" ChangeVal.nochange "g1" = emptyStore
  ∧ addToSet emptyStore "c1" ChangeVal.nochange "g1" = emptyStore :=
  C6_invalid_kind_noop emptyStore "c1" ChangeVal.nochange "g1" (by decide)

/-- C7: after `resetChanges(C)`, reading C's pending changes with
`getChangedIds(C)` yields three empty sets, whatever C's sets contained
before; in particular a collector with no pending changes reads back
empty sets. -/
theorem C7_reset_then_read_empty (store : Store) (C : String) :
    getChangedIds (resetChanges store C) C = ⟨∅, ∅, ∅⟩ := by
  simp [getChangedIds, resetChanges, updateStore]

/-- C8: when both collector lists are empty the affected-collector set is
empty and `trackGeneratorChanges` leaves the entire store unchanged. -/
theorem C8_no_collectors_noop (store : Store) (gen : Generator) :
    trackGeneratorChanges store gen [] [] = store := rfl

/-- C10: frame property of a reconcile call: collectors outside both
lists keep their record unchanged; within any collector, membership of
every id other than the given generator id is unchanged in all three
sets; and the processed collector list is the deduplication of the two
lists — it has no duplicates and holds exactly the union's members, so
each affected collector is processed exactly once. -/
theorem C10_frame_and_dedup (store : Store) (gen : Generator)
    (oldC newC : List String) :
    (∀ D, D ∉ oldC ∧ D ∉ newC → trackGeneratorChanges store gen oldC newC D = store D)
  ∧ (∀ D x, x ≠ gen.id →
      ((x ∈ (trackGeneratorChanges store gen oldC newC D).added ↔ x ∈ (store D).added)
     ∧ (x ∈ (trackGeneratorChanges store gen oldC newC D).deleted ↔ x ∈ (store D).deleted)
     ∧ (x ∈ (trackGeneratorChanges store gen oldC newC D).updated ↔ x ∈ (store D).updated)))
  ∧ (dedupCollectors (oldC ++ newC)).Nodup
  ∧ (∀ c, c ∈ dedupCollectors (oldC ++ newC) ↔ c ∈ oldC ∨ c ∈ newC) := by
  refine ⟨?_, ?_, nodup_dedupCollectors _, ?_⟩
  · intro D hD
    rw [trackGeneratorChanges_apply, if_neg]
    rw [mem_dedupCollectors]
    simp [hD.1, hD.2]
  · intro D x hx
    rw [trackGeneratorChanges_apply]
    by_cases hD : D ∈ dedupCollectors (oldC ++ newC)
    · rw [if_pos hD]
      exact netEffect_mem_of_ne (store D) gen.id (oldC.contains D) (newC.contains D) x hx
    · rw [if_neg hD]
      simp
  · intro c
    rw [mem_dedupCollectors]
    exact List.mem_append

theorem C10_witness :
    trackGeneratorChanges emptyStore ⟨"g1"⟩ ["c1"] [] "c2" = emptyStore "c2"
  ∧ (("g2" : String) ∈ (trackGeneratorChanges emptyStore ⟨"g1"⟩ ["c1"] [] "c1").added ↔
      ("g2" : String) ∈ (emptyStore "c1").added) :=
  ⟨(C10_frame_and_dedup emptyStore ⟨"g1"⟩ ["c1"] []).1 "c2" (by decide),
   ((C10_frame_and_dedup emptyStore ⟨"g1"⟩ ["c1"] []).2.1 "c1" "g2" (by decide)).1⟩
